import Mathlib

/-
  Verification of the kbflash orchestration core.

  Shallow embedding of the Go sources:
  - internal/device/detector_linux.go, detector_darwin.go (presence detector)
  - internal/firmware/flasher.go (flash executor, build scanner)
  - internal/firmware/builder.go (native build executor, progress parsing)
  - internal/ui (firmware panel, orchestrator state machine in Model.Update)
-/

set_option maxHeartbeats 1000000

namespace KBFlash

/-! ## Device presence detector (internal/device) -/

/-- device.Event from internal/device: a connection state change. -/
structure Event where
  connected : Bool
  path : String
  deriving DecidableEq, Repr

/-- The polling loop body of linuxDetector.Detect / darwinDetector.Detect:
given the last emitted event and the remaining sequence of poll results
(findDevice outcomes), an event is sent on the channel exactly when the
connected flag or the path differs from the last emitted values, and the
tracked last values are updated on each emission. -/
def emitLoop (last : Event) : List Event → List Event
  | [] => []
  | e :: rest =>
    if e.connected ≠ last.connected ∨ e.path ≠ last.path then
      e :: emitLoop e rest
    else
      emitLoop last rest

/-- Detect: the first poll result is always emitted ("check immediately on
start"), then the loop de-duplicates against the last emitted event. -/
def detectEmits : List Event → List Event
  | [] => []
  | e :: rest => e :: emitLoop e rest

theorem event_change_iff (e l : Event) :
    (e.connected ≠ l.connected ∨ e.path ≠ l.path) ↔ e ≠ l := by
  constructor
  · rintro (h | h) rfl <;> exact h rfl
  · intro h
    by_contra hc
    push_neg at hc
    exact h (by cases e; cases l; simp_all)

theorem emitLoop_destutter (l : List Event) : ∀ last : Event,
    List.destutter' (fun a b : Event => a ≠ b) last l = last :: emitLoop last l := by
  induction l with
  | nil =>
    intro last
    simp [emitLoop, List.destutter'_nil]
  | cons e rest ih =>
    intro last
    rw [List.destutter'_cons]
    by_cases h : last = e
    · rw [if_neg (by simpa using h), emitLoop,
        if_neg (by rw [event_change_iff]; simpa using h.symm)]
      exact ih last
    · rw [if_pos h, emitLoop, if_pos ((event_change_iff e last).2 (Ne.symm h))]
      rw [ih e]

theorem detectEmits_eq_destutter (polls : List Event) :
    detectEmits polls = polls.destutter (fun a b : Event => a ≠ b) := by
  cases polls with
  | nil => rfl
  | cons e rest =>
    rw [detectEmits, List.destutter, emitLoop_destutter]

theorem emitLoop_getLast (l : List Event) : ∀ last : Event,
    (last :: emitLoop last l).getLast? = (last :: l).getLast? := by
  induction l with
  | nil => intro last; rfl
  | cons e rest ih =>
    intro last
    by_cases h : e.connected ≠ last.connected ∨ e.path ≠ last.path
    · rw [emitLoop, if_pos h, List.getLast?_cons_cons, List.getLast?_cons_cons]
      exact ih e
    · have he : e = last := by
        by_contra hne
        exact h ((event_change_iff e last).2 hne)
      rw [emitLoop, if_neg h, List.getLast?_cons_cons, he]
      exact ih last

/-- C5: for every sequence of presence polls, the Detector emits exactly one
initial event reflecting the current presence state (head preserved), and
thereafter emits an event if and only if the connected flag or the resolved
path differs from the previously emitted event: the emitted sequence is
exactly the destuttering of the poll sequence — a subsequence of the polls
with no two consecutive equal events that still tracks the final poll value.
-/
theorem detector_no_duplicate_events (polls : List Event) :
    detectEmits polls = polls.destutter (fun a b : Event => a ≠ b) ∧
    (detectEmits polls).head? = polls.head? ∧
    List.Chain' (fun a b : Event => a ≠ b) (detectEmits polls) ∧
    (detectEmits polls).getLast? = polls.getLast? ∧
    List.Sublist (detectEmits polls) polls := by
  refine ⟨detectEmits_eq_destutter polls, ?_, ?_, ?_, ?_⟩
  · cases polls with
    | nil => rfl
    | cons e rest => rfl
  · rw [detectEmits_eq_destutter]
    exact List.destutter_is_chain' _ _
  · cases polls with
    | nil => rfl
    | cons e rest => exact emitLoop_getLast rest e
  · rw [detectEmits_eq_destutter]
    exact List.destutter_sublist _ _

/-! ## Firmware data model (internal/firmware) -/

/-- firmware.File: a firmware file discovered by the scanner. -/
structure File where
  Name : String
  Path : String
  Size : Int
  deriving DecidableEq, Repr

/-- firmware.Build: a dated (YYYYMMDD) or flat (empty Date) build. -/
structure Build where
  Date : String
  Path : String
  Files : List File
  deriving DecidableEq, Repr

/-! ## Firmware panel (internal/ui panels, FirmwarePanel) -/

/-- ui.FirmwarePanel: the firmware list with its selection index.
The Go field selected is an int, so it is modelled as an Int. -/
structure FirmwarePanel where
  builds : List Build
  selected : Int
  deriving Repr

/-- NewFirmwarePanel: selection starts at 0 with no builds. -/
def NewFirmwarePanel : FirmwarePanel :=
  { builds := [], selected := 0 }

/-- FirmwarePanel.SetBuilds: replaces the list and clamps the selection,
first down to len-1 when it is past the end, then up to 0 when negative. -/
def SetBuilds (p : FirmwarePanel) (builds : List Build) : FirmwarePanel :=
  let sel1 : Int :=
    if p.selected ≥ (builds.length : Int) then (builds.length : Int) - 1 else p.selected
  let sel2 : Int := if sel1 < 0 then 0 else sel1
  { builds := builds, selected := sel2 }

/-- FirmwarePanel.Selected: nil on an empty list, otherwise the element at
the selection index (the Go code indexes the slice directly; the model
returns the optional lookup so that in-boundedness is an observable fact). -/
def Selected (p : FirmwarePanel) : Option Build :=
  if p.builds.length = 0 then none
  else p.builds[p.selected.toNat]?

/-- FirmwarePanel.MoveUp: decrement the selection unless already at 0. -/
def MoveUp (p : FirmwarePanel) : FirmwarePanel :=
  if p.selected > 0 then { p with selected := p.selected - 1 } else p

/-- FirmwarePanel.MoveDown: increment the selection unless at the end. -/
def MoveDown (p : FirmwarePanel) : FirmwarePanel :=
  if p.selected < (p.builds.length : Int) - 1 then
    { p with selected := p.selected + 1 }
  else p

/-- A user-driven operation on the firmware panel. -/
inductive PanelOp
  | setBuilds (builds : List Build)
  | moveUp
  | moveDown
  deriving Repr

def applyOp (p : FirmwarePanel) : PanelOp → FirmwarePanel
  | .setBuilds bs => SetBuilds p bs
  | .moveUp => MoveUp p
  | .moveDown => MoveDown p

def applyOps (p : FirmwarePanel) : List PanelOp → FirmwarePanel
  | [] => p
  | op :: rest => applyOps (applyOp p op) rest

/-- The selection invariant: the index is never negative, and strictly below
the list length whenever the list is non-empty. -/
def PanelInv (p : FirmwarePanel) : Prop :=
  0 ≤ p.selected ∧ (p.builds ≠ [] → p.selected < (p.builds.length : Int))

theorem setBuilds_inv (p : FirmwarePanel) (bs : List Build) :
    PanelInv (SetBuilds p bs) := by
  unfold SetBuilds PanelInv
  dsimp only
  split_ifs with h1 h2 h3 <;>
    refine ⟨?_, fun hne => ?_⟩ <;>
    have hpos := fun (h : bs ≠ []) => List.length_pos.2 h <;>
    first
      | omega
      | (have hp := hpos hne; omega)

theorem moveUp_inv (p : FirmwarePanel) (h : PanelInv p) : PanelInv (MoveUp p) := by
  obtain ⟨h0, hlt⟩ := h
  unfold MoveUp PanelInv
  split <;> (try dsimp only)
  · exact ⟨by omega, fun hne => by have := hlt hne; omega⟩
  · exact ⟨h0, hlt⟩

theorem moveDown_inv (p : FirmwarePanel) (h : PanelInv p) : PanelInv (MoveDown p) := by
  obtain ⟨h0, hlt⟩ := h
  unfold MoveDown PanelInv
  split <;> (try dsimp only)
  · next hc => exact ⟨by omega, fun _ => by omega⟩
  · exact ⟨h0, hlt⟩

theorem applyOp_inv (p : FirmwarePanel) (op : PanelOp) (h : PanelInv p) :
    PanelInv (applyOp p op) := by
  cases op with
  | setBuilds bs => exact setBuilds_inv p bs
  | moveUp => exact moveUp_inv p h
  | moveDown => exact moveDown_inv p h

theorem applyOps_inv (ops : List PanelOp) : ∀ p : FirmwarePanel, PanelInv p →
    PanelInv (applyOps p ops) := by
  induction ops with
  | nil => intro p h; exact h
  | cons op rest ih =>
    intro p h
    exact ih _ (applyOp_inv p op h)

theorem selected_of_inv (p : FirmwarePanel) (h : PanelInv p) :
    (Selected p = none ↔ p.builds = []) ∧ (∀ b, Selected p = some b → b ∈ p.builds) := by
  obtain ⟨h0, hlt⟩ := h
  unfold Selected
  by_cases he : p.builds = []
  · simp [he]
  · have hlen := hlt he
    have hlenpos : 0 < p.builds.length := List.length_pos.2 he
    rw [if_neg (by omega)]
    constructor
    · constructor
      · intro hnone
        exfalso
        rw [List.getElem?_eq_none_iff] at hnone
        omega
      · intro hcon
        exact absurd hcon he
    · intro b hb
      exact List.getElem?_mem hb

/-- C10: the firmware panel's selection index stays in bounds under every
sequence of SetBuilds / MoveUp / MoveDown operations starting from the fresh
panel: the index is never negative, is below the list length whenever the
list is non-empty, and Selected returns none exactly on the empty list and
otherwise an element of the current list. -/
theorem firmware_panel_selection_in_bounds (ops : List PanelOp) :
    0 ≤ (applyOps NewFirmwarePanel ops).selected ∧
    ((applyOps NewFirmwarePanel ops).builds ≠ [] →
      (applyOps NewFirmwarePanel ops).selected <
        ((applyOps NewFirmwarePanel ops).builds.length : Int)) ∧
    (Selected (applyOps NewFirmwarePanel ops) = none ↔
      (applyOps NewFirmwarePanel ops).builds = []) ∧
    (∀ b, Selected (applyOps NewFirmwarePanel ops) = some b →
      b ∈ (applyOps NewFirmwarePanel ops).builds) := by
  have hinv : PanelInv (applyOps NewFirmwarePanel ops) := by
    apply applyOps_inv
    exact ⟨le_refl 0, fun hne => absurd rfl hne⟩
  obtain ⟨hsel, hmem⟩ := selected_of_inv _ hinv
  exact ⟨hinv.1, hinv.2, hsel, hmem⟩

/-- Concrete instantiation of the panel bounds theorem. -/
theorem firmware_panel_selection_in_bounds_witness :
    ((applyOps NewFirmwarePanel
        [PanelOp.setBuilds [{ Date := "20250101", Path := "fw/20250101", Files := [] }],
         PanelOp.moveDown]).builds ≠ [] →
      (applyOps NewFirmwarePanel
        [PanelOp.setBuilds [{ Date := "20250101", Path := "fw/20250101", Files := [] }],
         PanelOp.moveDown]).selected <
        ((applyOps NewFirmwarePanel
          [PanelOp.setBuilds [{ Date := "20250101", Path := "fw/20250101", Files := [] }],
           PanelOp.moveDown]).builds.length : Int)) ∧
    (applyOps NewFirmwarePanel
        [PanelOp.setBuilds [{ Date := "20250101", Path := "fw/20250101", Files := [] }],
         PanelOp.moveDown]).selected = 0 :=
  ⟨(firmware_panel_selection_in_bounds
      [PanelOp.setBuilds [{ Date := "20250101", Path := "fw/20250101", Files := [] }],
       PanelOp.moveDown]).2.1, by decide⟩

/-! ## Build scanner (internal/firmware, Scanner.Scan) -/

/-- isDateDir: a directory name of exactly 8 ASCII digits (YYYYMMDD). -/
def isDateDir (s : String) : Bool :=
  s.length = 8 && s.toList.all (fun c => '0' ≤ c && c ≤ '9')

/-- Go's built-in string less-than: lexicographic comparison, modelled on
the character lists (the date keys compared here are ASCII, where byte
order and character order coincide). -/
def listLtChars : List Char → List Char → Bool
  | _, [] => false
  | [], _ :: _ => true
  | a :: as, b :: bs =>
    if a < b then true
    else if b < a then false
    else listLtChars as bs

theorem listLtChars_iff : ∀ as bs : List Char, listLtChars as bs = true ↔ as < bs := by
  intro as
  induction as with
  | nil =>
    intro bs
    cases bs with
    | nil =>
      simp only [listLtChars, Bool.false_eq_true, false_iff]
      intro h
      cases h
    | cons b bs =>
      simp only [listLtChars, true_iff]
      exact List.Lex.nil
  | cons a as ih =>
    intro bs
    cases bs with
    | nil =>
      simp only [listLtChars, Bool.false_eq_true, false_iff]
      intro h
      cases h
    | cons b bs =>
      rw [listLtChars]
      split_ifs with h1 h2
      · simp only [true_iff]
        exact List.Lex.rel h1
      · simp only [Bool.false_eq_true, false_iff]
        intro h
        cases h with
        | rel hab => exact h1 hab
        | cons htl => exact lt_irrefl _ h2
      · have hab : a = b := le_antisymm (le_of_not_lt h2) (le_of_not_lt h1)
        subst hab
        rw [ih bs]
        constructor
        · intro h
          exact List.Lex.cons h
        · intro h
          cases h with
          | rel hab => exact absurd hab h1
          | cons htl => exact htl

theorem strLt_iff (a b : String) : listLtChars a.toList b.toList = true ↔ a < b :=
  (listLtChars_iff _ _).trans String.lt_iff_toList_lt.symm

/-- The comparison closure passed to sort.Slice in Scanner.Scan: a flat
build (empty Date) is never less than anything, everything dated is less
than a flat build, and dated builds compare by Date descending
(builds[i].Date > builds[j].Date). -/
def buildLess (a b : Build) : Bool :=
  if a.Date = "" then false
  else if b.Date = "" then true
  else listLtChars b.Date.toList a.Date.toList

/-- Insert into a list already ordered by buildLess.  Since sort.Slice is
given pairwise-distinct keys here (ReadDir entry names are unique and only
one flat build is ever appended), the sorted order is unique and an
insertion sort computes exactly what sort.Slice produces. -/
def insertBuild (a : Build) : List Build → List Build
  | [] => [a]
  | b :: rest => if buildLess a b then a :: b :: rest else b :: insertBuild a rest

def sortBuilds : List Build → List Build
  | [] => []
  | a :: rest => insertBuild a (sortBuilds rest)

/-- A filesystem file entry (name and size) as seen by os.ReadDir+Info. -/
structure FsFile where
  name : String
  size : Int
  deriving DecidableEq, Repr

/-- A subdirectory of the firmware root: its name and its file entries,
none when reading the directory fails. -/
structure SubDir where
  name : String
  files : Option (List FsFile)
  deriving DecidableEq, Repr

/-- The part of the filesystem Scanner.Scan observes: whether the root
exists, the non-directory entries of the root, and its subdirectories in
ReadDir order. -/
structure FsTree where
  rootExists : Bool
  rootFiles : List FsFile
  subdirs : List SubDir
  deriving Repr

/-- Scanner.scanDirectory: keep the file entries matching the configured
pattern (filepath.Match is external library code, abstracted as the
predicate argument) and turn them into firmware.File values. -/
def scanDirFiles (matcher : String → Bool) (dir : String) (files : List FsFile) : List File :=
  (files.filter (fun f => matcher f.name)).map
    (fun f => { Name := f.name, Path := dir ++ "/" ++ f.name, Size := f.size })

/-- Scanner.Scan: an already-cancelled context is an error; a missing root
directory yields an empty list and no error; otherwise the flat build (when
it has matching files) is collected first, then each 8-digit subdirectory
that reads successfully and has matching files, and the list is sorted with
buildLess (date descending, flat last). -/
def Scan (matcher : String → Bool) (root : String) (t : FsTree)
    (ctxCancelled : Bool) : Except String (List Build) :=
  if ctxCancelled then .error "context cancelled"
  else if !t.rootExists then .ok []
  else
    let flat := scanDirFiles matcher root t.rootFiles
    let flatBuilds : List Build :=
      if flat.length > 0 then [{ Date := "", Path := root, Files := flat }] else []
    let datedBuilds : List Build :=
      t.subdirs.filterMap (fun d =>
        if isDateDir d.name then
          match d.files with
          | none => none
          | some fs =>
            let files := scanDirFiles matcher (root ++ "/" ++ d.name) fs
            if files.length > 0 then
              some { Date := d.name, Path := root ++ "/" ++ d.name, Files := files }
            else none
        else none)
    .ok (sortBuilds (flatBuilds ++ datedBuilds))

theorem buildLess_asymm (a b : Build) (h : buildLess a b = true) :
    buildLess b a = false := by
  unfold buildLess at h ⊢
  by_cases h1 : a.Date = ""
  · rw [if_pos h1] at h
    exact absurd h (by simp)
  · rw [if_neg h1] at h
    by_cases h2 : b.Date = ""
    · rw [if_pos h2]
    · rw [if_neg h2] at h
      rw [if_neg h2, if_neg h1]
      have hlt : b.Date < a.Date := (strLt_iff _ _).1 h
      rw [Bool.eq_false_iff]
      intro hc
      exact lt_asymm hlt ((strLt_iff _ _).1 hc)

theorem buildLess_trans_neg (a b c : Build) (hab : buildLess a b = true)
    (hcb : buildLess c b = false) : buildLess c a = false := by
  unfold buildLess at hab hcb ⊢
  by_cases hc : c.Date = ""
  · rw [if_pos hc]
  · rw [if_neg hc] at hcb ⊢
    by_cases ha : a.Date = ""
    · rw [if_pos ha] at hab
      exact absurd hab (by simp)
    · rw [if_neg ha] at hab
      rw [if_neg ha]
      by_cases hb : b.Date = ""
      · rw [if_pos hb] at hcb
        exact absurd hcb (by simp)
      · rw [if_neg hb] at hab hcb
        have h1' : b.Date < a.Date := (strLt_iff _ _).1 hab
        rw [Bool.eq_false_iff]
        intro hc
        exact (Bool.eq_false_iff.mp hcb) ((strLt_iff _ _).2
          (lt_trans h1' ((strLt_iff _ _).1 hc)))

/-- The ordering produced by the sort: a appears before b only when
buildLess b a is false. -/
def SortedLess (l : List Build) : Prop :=
  List.Pairwise (fun a b => buildLess b a = false) l

theorem mem_insertBuild (c a : Build) (l : List Build) :
    c ∈ insertBuild a l ↔ c = a ∨ c ∈ l := by
  induction l with
  | nil => simp [insertBuild]
  | cons b rest ih =>
    rw [insertBuild]
    split
    · simp [List.mem_cons]
    · simp only [List.mem_cons, ih]
      tauto

theorem insertBuild_sorted (a : Build) (l : List Build) (h : SortedLess l) :
    SortedLess (insertBuild a l) := by
  induction l with
  | nil =>
    exact List.pairwise_singleton _ _
  | cons b rest ih =>
    rw [insertBuild]
    rcases List.pairwise_cons.1 h with ⟨hb, hrest⟩
    split
    · next hl =>
      refine List.pairwise_cons.2 ⟨?_, h⟩
      intro c hc
      rcases List.mem_cons.1 hc with rfl | hcr
      · exact buildLess_asymm a c hl
      · exact buildLess_trans_neg a b c hl (hb c hcr)
    · next hl =>
      refine List.pairwise_cons.2 ⟨?_, ih hrest⟩
      intro c hc
      rcases (mem_insertBuild c a rest).1 hc with rfl | hcr
      · simpa using hl
      · exact hb c hcr

theorem sortBuilds_sorted (l : List Build) : SortedLess (sortBuilds l) := by
  induction l with
  | nil => exact List.Pairwise.nil
  | cons a rest ih =>
    exact insertBuild_sorted a _ ih

theorem buildLess_false_elim (a b : Build) (h : buildLess b a = false) :
    (a.Date = "" → b.Date = "") ∧ (a.Date ≠ "" → b.Date ≠ "" → ¬ a.Date < b.Date) := by
  unfold buildLess at h
  by_cases hb : b.Date = ""
  · exact ⟨fun _ => hb, fun _ hbn _ => hbn hb⟩
  · rw [if_neg hb] at h
    by_cases ha : a.Date = ""
    · rw [if_pos ha] at h
      exact absurd h (by simp)
    · rw [if_neg ha] at h
      refine ⟨fun hae => absurd hae ha, fun _ _ hc => ?_⟩
      exact (Bool.eq_false_iff.mp h) ((strLt_iff _ _).2 hc)

/-- A sample firmware file entry used in the concrete scan example. -/
def exampleFsFile : FsFile :=
  { name := "corne.uf2", size := 1024 }

/-- A firmware root holding dated subdirectories 20250101, 20250115,
20250102 (in that ReadDir order), each with one matching file. -/
def exampleTree : FsTree :=
  { rootExists := true
    rootFiles := []
    subdirs :=
      [ { name := "20250101", files := some [exampleFsFile] },
        { name := "20250115", files := some [exampleFsFile] },
        { name := "20250102", files := some [exampleFsFile] } ] }

/-- The Build that Scan produces for a dated subdirectory d of exampleTree. -/
def exampleDatedBuild (d : String) : Build :=
  { Date := d
    Path := "fw" ++ "/" ++ d
    Files := [{ Name := "corne.uf2", Path := "fw" ++ "/" ++ d ++ "/" ++ "corne.uf2",
                Size := 1024 }] }

/-- C6: for every directory tree, the build list returned by Scan orders
dated builds by date key descending and places the flat build (empty date
key), when present, last; scanning dates 20250101, 20250115, 20250102
yields the order 20250115, 20250102, 20250101. -/
theorem scan_orders_builds :
    (∀ (matcher : String → Bool) (root : String) (t : FsTree) (bs : List Build),
      Scan matcher root t false = .ok bs →
      List.Pairwise (fun a b =>
        (a.Date = "" → b.Date = "") ∧
        (a.Date ≠ "" → b.Date ≠ "" → ¬ a.Date < b.Date)) bs) ∧
    Scan (fun _ => true) "fw" exampleTree false =
      .ok [exampleDatedBuild "20250115", exampleDatedBuild "20250102",
           exampleDatedBuild "20250101"] := by
  constructor
  · intro matcher root t bs h
    unfold Scan at h
    rw [if_neg (by simp)] at h
    by_cases hr : t.rootExists
    · rw [hr] at h
      simp only [Bool.not_true, Bool.false_eq_true, if_false, Except.ok.injEq] at h
      subst h
      exact (sortBuilds_sorted _).imp (fun hab => buildLess_false_elim _ _ hab)
    · rw [Bool.not_eq_true] at hr
      rw [hr] at h
      simp only [Bool.not_false, if_true, Except.ok.injEq] at h
      subst h
      exact List.Pairwise.nil
  · rfl

/-- Concrete instantiation of the scan ordering theorem at the example tree. -/
theorem scan_orders_builds_witness :
    List.Pairwise (fun a b =>
        (a.Date = "" → b.Date = "") ∧
        (a.Date ≠ "" → b.Date ≠ "" → ¬ a.Date < b.Date))
      [exampleDatedBuild "20250115", exampleDatedBuild "20250102",
       exampleDatedBuild "20250101"] :=
  scan_orders_builds.1 (fun _ => true) "fw" exampleTree _ scan_orders_builds.2

/-- C8: a nonexistent root directory is not an error: Scan returns an empty
build list and no error. -/
theorem scan_missing_root_returns_empty (matcher : String → Bool) (root : String)
    (t : FsTree) (h : t.rootExists = false) :
    Scan matcher root t false = .ok [] := by
  unfold Scan
  rw [h]
  simp

/-- Concrete instantiation of the missing-root theorem. -/
theorem scan_missing_root_returns_empty_witness :
    Scan (fun _ => true) "fw" { rootExists := false, rootFiles := [], subdirs := [] }
      false = .ok [] :=
  scan_missing_root_returns_empty (fun _ => true) "fw" _ rfl

/-! ## Native build executor (internal/firmware, Builder.Build) -/

/-- firmware.BuildProgress: one progress callback payload. -/
structure BuildProgress where
  Current : Nat
  Total : Nat
  Percent : Nat
  Output : String
  deriving DecidableEq, Repr

/-- Digit-string to number, as strconv.Atoi computes it on a digit-only
match of the progress regex. -/
def natOfDigits (l : List Char) : Nat :=
  l.foldl (fun n c => n * 10 + (c.toNat - '0'.toNat)) 0

/-- The anchored progress regex of Builder.Build: a line matches when it
starts with a bracketed current/total pair of one-or-more ASCII digits
each; on a match the two captured numbers are returned. -/
def parseProgress (line : String) : Option (Nat × Nat) :=
  match line.toList with
  | '[' :: rest =>
    match rest.span Char.isDigit with
    | (ds1, '/' :: r2) =>
      if ds1.isEmpty then none
      else
        match r2.span Char.isDigit with
        | (ds2, ']' :: _) =>
          if ds2.isEmpty then none
          else some (natOfDigits ds1, natOfDigits ds2)
        | _ => none
    | _ => none
  | _ => none

/-- One iteration of Builder.Build's line-scanning loop: on a progress
marker, raise the running maximum total and report
percent = current * 100 / maxTotal (0 when the tracker is still 0); on any
other line report the raw output with zero counts. Returns the updated
tracker and the BuildProgress handed to the callback. -/
def buildStep (maxTotal : Nat) (line : String) : Nat × BuildProgress :=
  match parseProgress line with
  | some (current, total) =>
    let maxTotal' := if total > maxTotal then total else maxTotal
    let percent := if maxTotal' > 0 then current * 100 / maxTotal' else 0
    (maxTotal', { Current := current, Total := maxTotal', Percent := percent, Output := line })
  | none =>
    (maxTotal, { Current := 0, Total := 0, Percent := 0, Output := line })

/-- The full sequence of BuildProgress values delivered to the progress
callback over the scanned output lines, starting from tracker value m. -/
def buildProgressSeq (m : Nat) : List String → List BuildProgress
  | [] => []
  | l :: rest =>
    let s := buildStep m l
    s.2 :: buildProgressSeq s.1 rest

/-- The reports belonging to progress-marker lines (the non-marker reports
carry the raw line in Output with zero counts, so markers are recognizable
by their Output). -/
def markerReports (m : Nat) (lines : List String) : List BuildProgress :=
  (buildProgressSeq m lines).filter (fun p => (parseProgress p.Output).isSome)

theorem buildStep_total_ge (m : Nat) (line : String) : m ≤ (buildStep m line).1 := by
  unfold buildStep
  cases parseProgress line with
  | none => exact le_refl m
  | some ct =>
    obtain ⟨c, t⟩ := ct
    try dsimp only
    split <;> omega

theorem buildStep_marker_total (m : Nat) (line : String)
    (h : (parseProgress line).isSome) : ((buildStep m line).2).Total = (buildStep m line).1 := by
  unfold buildStep
  cases hp : parseProgress line with
  | none => rw [hp] at h; simp at h
  | some ct => obtain ⟨c, t⟩ := ct; rfl

theorem markerReports_totals_lb (lines : List String) : ∀ m : Nat,
    ∀ p ∈ markerReports m lines, m ≤ p.Total := by
  induction lines with
  | nil => intro m p hp; simp [markerReports, buildProgressSeq] at hp
  | cons l rest ih =>
    intro m p hp
    simp only [markerReports, buildProgressSeq, List.filter_cons] at hp
    by_cases hm : (parseProgress ((buildStep m l).2).Output).isSome
    · rw [if_pos (by simpa using hm)] at hp
      rcases List.mem_cons.1 hp with rfl | htl
      · have hout : ((buildStep m l).2).Output = l := by
          unfold buildStep
          cases parseProgress l with
          | none => rfl
          | some ct => obtain ⟨c, t⟩ := ct; rfl
        rw [hout] at hm
        rw [buildStep_marker_total m l hm]
        exact buildStep_total_ge m l
      · exact le_trans (buildStep_total_ge m l) (ih (buildStep m l).1 p htl)
    · rw [if_neg (by simpa using hm)] at hp
      exact le_trans (buildStep_total_ge m l) (ih (buildStep m l).1 p hp)

theorem markerReports_totals_chain (lines : List String) : ∀ m : Nat,
    List.Chain' (fun p q : BuildProgress => p.Total ≤ q.Total) (markerReports m lines) := by
  induction lines with
  | nil => intro m; simp [markerReports, buildProgressSeq]
  | cons l rest ih =>
    intro m
    simp only [markerReports, buildProgressSeq, List.filter_cons]
    by_cases hm : (parseProgress ((buildStep m l).2).Output).isSome
    · rw [if_pos (by simpa using hm)]
      rw [List.chain'_cons']
      refine ⟨?_, ih (buildStep m l).1⟩
      intro q hq
      have hqmem : q ∈ markerReports (buildStep m l).1 rest :=
        List.mem_of_mem_head? hq
      have hqtot : (buildStep m l).1 ≤ q.Total :=
        markerReports_totals_lb rest (buildStep m l).1 q hqmem
      have hout : ((buildStep m l).2).Output = l := by
        unfold buildStep
        cases parseProgress l with
        | none => rfl
        | some ct => obtain ⟨c, t⟩ := ct; rfl
      rw [hout] at hm
      rw [buildStep_marker_total m l hm]
      exact hqtot
    · rw [if_neg (by simpa using hm)]
      exact ih (buildStep m l).1

theorem buildProgressSeq_percent (lines : List String) : ∀ m, ∀ p ∈ buildProgressSeq m lines,
    p.Percent = if p.Total > 0 then p.Current * 100 / p.Total else 0 := by
  induction lines with
  | nil => intro m p hp; simp [buildProgressSeq] at hp
  | cons l rest ih =>
    intro m p hp
    simp only [buildProgressSeq, List.mem_cons] at hp
    rcases hp with rfl | htl
    · cases hp' : parseProgress l with
      | none => simp [buildStep, hp']
      | some ct =>
        obtain ⟨c, t⟩ := ct
        simp [buildStep, hp']
    · exact ih (buildStep m l).1 p htl

/-- C2 counterexample: in a native build run the sequence of Percent values
delivered for progress-marker lines is NOT monotonically non-decreasing
when the tool enlarges its total partway through: for the exact line
sequence [1/10], [5/10], [3/20] the delivered percents are 10, 50, 15 —
the third regresses below the second even though the max-total tracker was
raised. -/
theorem build_percent_regresses :
    (markerReports 0 ["[1/10]", "[5/10]", "[3/20]"]).map (fun p => p.Percent)
      = [10, 50, 15] ∧
    ¬ List.Chain' (fun x y : Nat => x ≤ y)
        ((markerReports 0 ["[1/10]", "[5/10]", "[3/20]"]).map (fun p => p.Percent)) := by
  refine ⟨rfl, ?_⟩
  rw [show (markerReports 0 ["[1/10]", "[5/10]", "[3/20]"]).map (fun p => p.Percent)
      = [10, 50, 15] from rfl]
  intro h
  rw [List.chain'_cons, List.chain'_cons] at h
  obtain ⟨-, h2, -⟩ := h
  omega

/-- C2 (amended): within a single native build run the max-total tracker —
the Total value delivered to the callback on progress-marker lines — is
monotonically non-decreasing even when the tool revises its total, and
every marker report's Percent is exactly Current * 100 / Total for the
delivered (running-maximum) Total, with 0 when the tracker is still 0;
Percent itself may regress when the tracker is raised. -/
theorem build_total_monotone (lines : List String) :
    List.Chain' (fun p q : BuildProgress => p.Total ≤ q.Total) (markerReports 0 lines) ∧
    ∀ p ∈ markerReports 0 lines,
      p.Percent = if p.Total > 0 then p.Current * 100 / p.Total else 0 := by
  refine ⟨markerReports_totals_chain lines 0, ?_⟩
  intro p hp
  exact buildProgressSeq_percent lines 0 p (List.mem_of_mem_filter hp)

/-! ## Flash executor (internal/firmware, Flasher.Flash / copyWithContext) -/

/-- Whether ctx.Err() is non-nil at the i-th cancellation check.  A Go
context, once cancelled, stays cancelled, so the model is the index of the
first check that observes cancellation (none = never cancelled). -/
def cancelledAt (cancelAt : Option Nat) (i : Nat) : Bool :=
  match cancelAt with
  | none => false
  | some k => k ≤ i

/-- The result of src.Read in one copy-loop iteration: EOF or a failure. -/
inductive ReadErr
  | eof
  | fail (msg : String)
  deriving DecidableEq, Repr

/-- One iteration of the copy loop as seen by copyWithContext: the bytes
returned by src.Read, the bytes accepted by dst.Write together with its
error (consulted only when nr > 0), and the read error if any. -/
structure CopyStep where
  nr : Nat
  nw : Nat
  werr : Option String
  rerr : Option ReadErr
  deriving DecidableEq, Repr

/-- copyWithContext: before each chunk read the cancellation signal is
checked; a chunk write adds the accepted bytes to the running count, a
write error or a short write (nw different from nr) aborts, EOF ends the
copy successfully, and a read failure aborts.  The step list is the finite
trace of reads of the source. -/
def copyWithContext (cancelAt : Option Nat) : Nat → Nat → List CopyStep → Nat × Option String
  | i, written, [] =>
    if cancelledAt cancelAt i then (written, some "context canceled")
    else (written, none)
  | i, written, s :: rest =>
    if cancelledAt cancelAt i then (written, some "context canceled")
    else
      let wr := if s.nr > 0 then written + s.nw else written
      if s.nr > 0 ∧ s.werr.isSome then (wr, s.werr)
      else if s.nr > 0 ∧ s.nw ≠ s.nr then (wr, some "short write")
      else
        match s.rerr with
        | some .eof => (wr, none)
        | some (.fail e) => (wr, some e)
        | none => copyWithContext cancelAt (i + 1) wr rest

/-- The effect outcomes Flasher.Flash encounters, in program order: the
cancellation signal, the result of os.Open, (File).Stat (with the source's
stat size), os.Create in the device directory, the copy-loop trace, and
(File).Sync. -/
structure FlashEnv where
  cancelAt : Option Nat
  openErr : Option String
  statErr : Option String
  srcSize : Nat
  createErr : Option String
  steps : List CopyStep
  syncErr : Option String

/-- firmware.FlashResult. -/
structure FlashResult where
  Success : Bool
  Error : Option String
  BytesWritten : Nat
  deriving DecidableEq, Repr

/-- Flasher.Flash: entry cancellation check before opening any file, then
open, stat, create, the cancellable copy, the size validation against the
stat size, and the explicit sync.  The second component records whether the
destination file was created. -/
def Flash (env : FlashEnv) : FlashResult × Bool :=
  if cancelledAt env.cancelAt 0 then
    ({ Success := false, Error := some "context canceled", BytesWritten := 0 }, false)
  else
    match env.openErr with
    | some e =>
      ({ Success := false, Error := some ("open source: " ++ e), BytesWritten := 0 }, false)
    | none =>
      match env.statErr with
      | some e =>
        ({ Success := false, Error := some ("stat source: " ++ e), BytesWritten := 0 }, false)
      | none =>
        match env.createErr with
        | some e =>
          ({ Success := false, Error := some ("create destination: " ++ e),
             BytesWritten := 0 }, false)
        | none =>
          let cr := copyWithContext env.cancelAt 1 0 env.steps
          match cr.2 with
          | some e =>
            ({ Success := false, Error := some ("copy: " ++ e), BytesWritten := cr.1 }, true)
          | none =>
            if cr.1 ≠ env.srcSize then
              ({ Success := false, Error := some "size mismatch", BytesWritten := cr.1 }, true)
            else
              match env.syncErr with
              | some e =>
                ({ Success := false, Error := some ("sync: " ++ e), BytesWritten := cr.1 }, true)
              | none =>
                ({ Success := true, Error := none, BytesWritten := cr.1 }, true)

/-- C7: a context already cancelled when Flash is invoked fails before
opening any file: success is false, zero bytes are reported, the error is
non-nil, and no destination file is created. -/
theorem flash_cancelled_before_start (env : FlashEnv)
    (h : cancelledAt env.cancelAt 0 = true) :
    (Flash env).1.Success = false ∧ (Flash env).1.BytesWritten = 0 ∧
    (Flash env).1.Error.isSome = true ∧ (Flash env).2 = false := by
  unfold Flash
  rw [h]
  simp

/-- Concrete instantiation of the cancelled-before-start theorem. -/
theorem flash_cancelled_before_start_witness :
    (Flash { cancelAt := some 0, openErr := none, statErr := none, srcSize := 5,
             createErr := none, steps := [], syncErr := none }).1.BytesWritten = 0 ∧
    (Flash { cancelAt := some 0, openErr := none, statErr := none, srcSize := 5,
             createErr := none, steps := [], syncErr := none }).2 = false :=
  ⟨(flash_cancelled_before_start
      { cancelAt := some 0, openErr := none, statErr := none, srcSize := 5,
        createErr := none, steps := [], syncErr := none } rfl).2.1,
   (flash_cancelled_before_start
      { cancelAt := some 0, openErr := none, statErr := none, srcSize := 5,
        createErr := none, steps := [], syncErr := none } rfl).2.2.2⟩

/-- C3: Flash succeeds only when the bytes written equal the source's stat
size and the sync succeeded (and then BytesWritten is the source size); a
mismatch between the copied total and the stat size, with the copy loop
itself reporting no error, is reported as a failure with a non-nil error;
and when everything succeeds the result is success with BytesWritten equal
to the source size. -/
theorem flash_size_validation (env : FlashEnv) :
    ((Flash env).1.Success = true →
      (Flash env).1.BytesWritten = env.srcSize ∧ env.syncErr = none ∧
      (Flash env).1.Error = none) ∧
    (cancelledAt env.cancelAt 0 = false → env.openErr = none → env.statErr = none →
      env.createErr = none →
      (copyWithContext env.cancelAt 1 0 env.steps).2 = none →
      (copyWithContext env.cancelAt 1 0 env.steps).1 ≠ env.srcSize →
      (Flash env).1.Success = false ∧ (Flash env).1.Error.isSome = true ∧
      (Flash env).1.BytesWritten = (copyWithContext env.cancelAt 1 0 env.steps).1) ∧
    (cancelledAt env.cancelAt 0 = false → env.openErr = none → env.statErr = none →
      env.createErr = none →
      (copyWithContext env.cancelAt 1 0 env.steps).2 = none →
      (copyWithContext env.cancelAt 1 0 env.steps).1 = env.srcSize →
      env.syncErr = none →
      (Flash env).1.Success = true ∧ (Flash env).1.BytesWritten = env.srcSize) := by
  obtain ⟨ca, oe, se, ss, ce, st, sy⟩ := env
  dsimp only
  by_cases hc : cancelledAt ca 0
  · simp [Flash, hc]
  · rw [Bool.not_eq_true] at hc
    cases oe with
    | some e => simp [Flash, hc]
    | none =>
      cases se with
      | some e => simp [Flash, hc]
      | none =>
        cases ce with
        | some e => simp [Flash, hc]
        | none =>
          cases hcp : (copyWithContext ca 1 0 st).2 with
          | some e => simp [Flash, hc, hcp]
          | none =>
            by_cases hsz : (copyWithContext ca 1 0 st).1 = ss
            · cases sy with
              | some e => simp [Flash, hc, hcp, hsz]
              | none => simp [Flash, hc, hcp, hsz]
            · cases sy with
              | some e => simp [Flash, hc, hcp, hsz]
              | none => simp [Flash, hc, hcp, hsz]

/-- Concrete instantiation of the size-validation theorem: a 3-byte copy
into a 3-byte source succeeds with 3 bytes reported, and the same copy
against a source whose stat size is 5 is a failure with a non-nil error. -/
theorem flash_size_validation_witness :
    (Flash { cancelAt := none, openErr := none, statErr := none, srcSize := 3,
             createErr := none,
             steps := [{ nr := 3, nw := 3, werr := none, rerr := some .eof }],
             syncErr := none }).1.Success = true ∧
    (Flash { cancelAt := none, openErr := none, statErr := none, srcSize := 3,
             createErr := none,
             steps := [{ nr := 3, nw := 3, werr := none, rerr := some .eof }],
             syncErr := none }).1.BytesWritten = 3 ∧
    (Flash { cancelAt := none, openErr := none, statErr := none, srcSize := 5,
             createErr := none,
             steps := [{ nr := 3, nw := 3, werr := none, rerr := some .eof }],
             syncErr := none }).1.Success = false ∧
    (Flash { cancelAt := none, openErr := none, statErr := none, srcSize := 5,
             createErr := none,
             steps := [{ nr := 3, nw := 3, werr := none, rerr := some .eof }],
             syncErr := none }).1.Error.isSome = true := by
  have hok := (flash_size_validation
    { cancelAt := none, openErr := none, statErr := none, srcSize := 3,
      createErr := none,
      steps := [{ nr := 3, nw := 3, werr := none, rerr := some .eof }],
      syncErr := none }).2.2 rfl rfl rfl rfl rfl rfl rfl
  have hbad := (flash_size_validation
    { cancelAt := none, openErr := none, statErr := none, srcSize := 5,
      createErr := none,
      steps := [{ nr := 3, nw := 3, werr := none, rerr := some .eof }],
      syncErr := none }).2.1 rfl rfl rfl rfl rfl (by decide)
  exact ⟨hok.1, hok.2, hbad.1, hbad.2.1⟩

/-! ## Orchestrator state machine (internal/ui, Model.Update)

The model projects ui.Model onto the fields the flash-session protocol
reads and writes, and the message alphabet onto the messages that drive a
flash session: device events, flash outcomes, and the idle-state flash
request / escape / completion-acknowledge keys.  The build flow only moves
between StateIdle and StateBuilding, and the factory-reset flow is a
separate reduced flow behind a confirmation dialog; neither touches the
per-side safety protocol verified here. -/

inductive AppState
  | StateIdle
  | StateBuilding
  | StateWaitingDisconnect
  | StateWaitingDevice
  | StateFlashing
  | StateComplete
  deriving DecidableEq, Repr

inductive DeviceStatus
  | DeviceDisconnected
  | DeviceConnected
  | DeviceWaiting
  deriving DecidableEq, Repr

/-- The flash-session projection of ui.Model. -/
structure OrchModel where
  state : AppState
  deviceStatus : DeviceStatus
  devicePath : String
  sides : List String
  isSplit : Bool
  selectedBuild : Option Build
  flashIndex : Nat
  flashTarget : String
  completedSteps : List String
  deriving Repr

/-- The sides defaulting applied inside Update's flashCompleteMsg case and
in prepareFlash: an empty configured list falls back to a single synthetic
side. -/
def effSides (sides : List String) : List String :=
  if sides = [] then ["main"] else sides

/-- strings.ToLower, on the ASCII side identifiers used here. -/
def strToLower (s : String) : String :=
  String.mk (s.toList.map Char.toLower)

/-- strings.Contains: needle occurs as a contiguous substring of hay. -/
def listContainsSub (hay needle : List Char) : Bool :=
  hay.tails.any (fun t => needle.isPrefixOf t)

def strContains (hay needle : String) : Bool :=
  listContainsSub hay.toList needle.toList

instance : Inhabited File := ⟨{ Name := "", Path := "", Size := 0 }⟩

/-- Target-file resolution of Model.startFlash (and runHeadless): the first
file whose lowered name contains the lowered side identifier; with no match
and exactly one file, that file; otherwise the empty path sentinel. -/
def findTargetFile (files : List File) (target : String) : String :=
  let t := strToLower target
  let fp :=
    match files.find? (fun f => strContains (strToLower f.Name) t) with
    | some f => f.Path
    | none => ""
  if fp = "" && files.length == 1 then files.headI.Path
  else fp

/-- Model.startFlash: no selection is a no-op; otherwise the state becomes
Flashing and the target file is resolved, falling back to Idle with a
"no firmware for side" report when resolution fails. -/
def startFlash (m : OrchModel) : OrchModel :=
  match m.selectedBuild with
  | none => m
  | some build =>
    let m1 := { m with state := AppState.StateFlashing }
    let fp := findTargetFile build.Files m1.flashTarget
    if fp = "" then { m1 with state := AppState.StateIdle }
    else m1

/-- Update's deviceEventMsg case: a connect records the device presence and
starts the flash only from StateWaitingDevice; a disconnect records the
absence and advances StateWaitingDisconnect to StateWaitingDevice. -/
def onDeviceEvent (m : OrchModel) (connected : Bool) (path : String) : OrchModel :=
  if connected then
    let m1 := { m with deviceStatus := DeviceStatus.DeviceConnected, devicePath := path }
    if m1.state = AppState.StateWaitingDevice then startFlash m1 else m1
  else
    let m1 := { m with deviceStatus := DeviceStatus.DeviceDisconnected, devicePath := "" }
    if m1.state = AppState.StateWaitingDisconnect then
      { m1 with state := AppState.StateWaitingDevice }
    else m1

/-- Update's flashCompleteMsg case: on success the completed step is
recorded and the side cursor advances; a remaining side re-enters
StateWaitingDisconnect with the next side as target, the last side enters
StateComplete.  On failure the state returns to Idle. -/
def onFlashComplete (m : OrchModel) (success : Bool) : OrchModel :=
  if success then
    let m1 := { m with completedSteps := m.completedSteps ++ [m.flashTarget ++ " flashed"] }
    let sides := effSides m1.sides
    let m2 := { m1 with flashIndex := m1.flashIndex + 1 }
    if m2.flashIndex < sides.length then
      { m2 with flashTarget := sides.getD m2.flashIndex "",
                state := AppState.StateWaitingDisconnect }
    else
      { m2 with state := AppState.StateComplete }
  else
    { m with state := AppState.StateIdle }

/-- Model.prepareFlash: requires a selection with files, resets the cursor
and the completed steps, targets the first side, and waits for a
disconnect when the device is currently connected, otherwise for a
connect. -/
def prepareFlash (m : OrchModel) : OrchModel :=
  match m.selectedBuild with
  | none => m
  | some build =>
    if build.Files.length = 0 then m
    else
      let m1 := { m with completedSteps := [], flashIndex := 0 }
      let sides := effSides m1.sides
      let m2 := { m1 with flashTarget := sides.getD 0 "" }
      if m2.deviceStatus = DeviceStatus.DeviceConnected then
        { m2 with state := AppState.StateWaitingDisconnect }
      else
        { m2 with state := AppState.StateWaitingDevice }

/-- The messages of a flash session. -/
inductive Msg
  | deviceEvent (connected : Bool) (path : String)
  | flashComplete (success : Bool)
  | keyFlash
  | keyEsc
  | keyEnter
  deriving DecidableEq, Repr

/-- One step of Model.Update restricted to the flash-session messages.
keyFlash reaches prepareFlash only from StateIdle with a selection
(handleKey dispatches to handleIdleKey only in StateIdle); keyEsc cancels
the waiting states and acknowledges completion; keyEnter acknowledges
completion. -/
def step (m : OrchModel) : Msg → OrchModel
  | .deviceEvent c p => onDeviceEvent m c p
  | .flashComplete s => onFlashComplete m s
  | .keyFlash =>
    if m.state = AppState.StateIdle then
      match m.selectedBuild with
      | some _ => prepareFlash m
      | none => m
    else m
  | .keyEsc =>
    if m.state = AppState.StateWaitingDisconnect ∨ m.state = AppState.StateWaitingDevice then
      { m with state := AppState.StateIdle }
    else if m.state = AppState.StateComplete then
      { m with state := AppState.StateIdle, completedSteps := [] }
    else m
  | .keyEnter =>
    if m.state = AppState.StateComplete then
      { m with state := AppState.StateIdle, completedSteps := [] }
    else m

/-- C1: in a split-keyboard flashing session, Flashing for side N+1 begins
only after a disconnect observed after side N's success: a successful flash
of a non-final side moves to WaitingDisconnect with the cursor advanced and
the next side targeted (never directly to Flashing or WaitingDevice); a
disconnect event in WaitingDisconnect moves to WaitingDevice; the Flashing
state is entered only on a connect event received in WaitingDevice; and
after the last side succeeds the state is Complete. -/
theorem orchestrator_disconnect_safety :
    (∀ m : OrchModel, m.state = AppState.StateFlashing →
      m.flashIndex + 1 < (effSides m.sides).length →
      (step m (.flashComplete true)).state = AppState.StateWaitingDisconnect ∧
      (step m (.flashComplete true)).flashIndex = m.flashIndex + 1 ∧
      (step m (.flashComplete true)).flashTarget
        = (effSides m.sides).getD (m.flashIndex + 1) "") ∧
    (∀ m : OrchModel, m.state = AppState.StateFlashing →
      ¬ (m.flashIndex + 1 < (effSides m.sides).length) →
      (step m (.flashComplete true)).state = AppState.StateComplete) ∧
    (∀ (m : OrchModel) (p : String), m.state = AppState.StateWaitingDisconnect →
      (step m (.deviceEvent false p)).state = AppState.StateWaitingDevice) ∧
    (∀ (m : OrchModel) (msg : Msg), (step m msg).state = AppState.StateFlashing →
      m.state = AppState.StateFlashing ∨
      (m.state = AppState.StateWaitingDevice ∧ ∃ p, msg = Msg.deviceEvent true p)) := by
  refine ⟨?_, ?_, ?_, ?_⟩
  · intro m h1 h2
    simp only [step, onFlashComplete, if_true]
    try dsimp only
    rw [if_pos h2]
    exact ⟨rfl, rfl, rfl⟩
  · intro m h1 h2
    simp only [step, onFlashComplete, if_true]
    try dsimp only
    rw [if_neg h2]
  · intro m p h1
    simp only [step, onDeviceEvent, Bool.false_eq_true, if_false]
    try dsimp only
    rw [if_pos h1]
  · intro m msg h
    cases msg with
    | deviceEvent c p =>
      cases c with
      | true =>
        simp only [step, onDeviceEvent, if_true] at h
        try dsimp only at h
        by_cases hw : m.state = AppState.StateWaitingDevice
        · exact Or.inr ⟨hw, p, rfl⟩
        · rw [if_neg hw] at h
          exact Or.inl h
      | false =>
        simp only [step, onDeviceEvent, Bool.false_eq_true, if_false] at h
        try dsimp only at h
        by_cases hw : m.state = AppState.StateWaitingDisconnect
        · rw [if_pos hw] at h
          cases h
        · rw [if_neg hw] at h
          exact Or.inl h
    | flashComplete s =>
      cases s with
      | true =>
        simp only [step, onFlashComplete, if_true] at h
        try dsimp only at h
        by_cases hl : m.flashIndex + 1 < (effSides m.sides).length
        · rw [if_pos hl] at h
          cases h
        · rw [if_neg hl] at h
          cases h
      | false =>
        simp only [step, onFlashComplete, Bool.false_eq_true, if_false] at h
        cases h
    | keyFlash =>
      simp only [step] at h
      by_cases hi : m.state = AppState.StateIdle
      · rw [if_pos hi] at h
        cases hb : m.selectedBuild with
        | none =>
          rw [hb] at h
          try dsimp only at h
          rw [h] at hi
          cases hi
        | some build =>
          rw [hb] at h
          try dsimp only at h
          rw [prepareFlash, hb] at h
          try dsimp only at h
          by_cases hf : build.Files.length = 0
          · rw [if_pos hf] at h
            rw [h] at hi
            cases hi
          · rw [if_neg hf] at h
            split at h <;> cases h
      · rw [if_neg hi] at h
        exact Or.inl h
    | keyEsc =>
      simp only [step] at h
      by_cases hw : m.state = AppState.StateWaitingDisconnect ∨
          m.state = AppState.StateWaitingDevice
      · rw [if_pos hw] at h
        cases h
      · rw [if_neg hw] at h
        by_cases hc : m.state = AppState.StateComplete
        · rw [if_pos hc] at h
          cases h
        · rw [if_neg hc] at h
          exact Or.inl h
    | keyEnter =>
      simp only [step] at h
      by_cases hc : m.state = AppState.StateComplete
      · rw [if_pos hc] at h
        cases h
      · rw [if_neg hc] at h
        exact Or.inl h

/-- A two-file split build used to instantiate the orchestrator theorems. -/
def exampleBuildLR : Build :=
  { Date := "20250115"
    Path := "fw/20250115"
    Files :=
      [{ Name := "corne_left.uf2", Path := "fw/20250115/corne_left.uf2", Size := 1 },
       { Name := "corne_right.uf2", Path := "fw/20250115/corne_right.uf2", Size := 1 }] }

/-- A split-keyboard session mid-flash on the first side. -/
def mFlashing : OrchModel :=
  { state := AppState.StateFlashing
    deviceStatus := DeviceStatus.DeviceConnected
    devicePath := "/Volumes/NICENANO"
    sides := ["left", "right"]
    isSplit := true
    selectedBuild := some exampleBuildLR
    flashIndex := 0
    flashTarget := "left"
    completedSteps := [] }

/-- The same session waiting for the swap to the second side. -/
def mWaitDisc : OrchModel :=
  { mFlashing with state := AppState.StateWaitingDisconnect,
                   flashIndex := 1, flashTarget := "right" }

/-- Concrete instantiation of the disconnect-safety theorem on a two-side
session: success on side 1 waits for a disconnect, the disconnect waits for
the device, and success on side 2 completes. -/
theorem orchestrator_disconnect_safety_witness :
    (step mFlashing (.flashComplete true)).state = AppState.StateWaitingDisconnect ∧
    (step mWaitDisc (.deviceEvent false "")).state = AppState.StateWaitingDevice ∧
    (step { mFlashing with flashIndex := 1, flashTarget := "right" }
        (.flashComplete true)).state = AppState.StateComplete :=
  ⟨(orchestrator_disconnect_safety.1 mFlashing rfl (by decide)).1,
   orchestrator_disconnect_safety.2.2.1 mWaitDisc "" rfl,
   orchestrator_disconnect_safety.2.1
     { mFlashing with flashIndex := 1, flashTarget := "right" } rfl (by decide)⟩

theorem startFlash_flashIndex (m : OrchModel) : (startFlash m).flashIndex = m.flashIndex := by
  unfold startFlash
  split
  · rfl
  · dsimp only
    split <;> rfl

theorem startFlash_flashTarget (m : OrchModel) :
    (startFlash m).flashTarget = m.flashTarget := by
  unfold startFlash
  split
  · rfl
  · dsimp only
    split <;> rfl

/-- C4: a failed flash returns the session to Idle with the cursor left to
be discarded; the cursor only ever advances on a successful flash outcome
(or is reset to 0 by a new flash request); and a newly requested flash
session always restarts at cursor 0 on the first side with the completed
steps cleared. -/
theorem flash_failure_discards_cursor :
    (∀ m : OrchModel, (step m (.flashComplete false)).state = AppState.StateIdle ∧
      (step m (.flashComplete false)).flashIndex = m.flashIndex) ∧
    (∀ (m : OrchModel) (msg : Msg),
      (step m msg).flashIndex = m.flashIndex ∨
      (msg = Msg.flashComplete true ∧ (step m msg).flashIndex = m.flashIndex + 1) ∨
      (msg = Msg.keyFlash ∧ (step m msg).flashIndex = 0)) ∧
    (∀ (m : OrchModel) (b : Build), m.state = AppState.StateIdle →
      m.selectedBuild = some b → b.Files.length ≠ 0 →
      (step m .keyFlash).flashIndex = 0 ∧
      (step m .keyFlash).flashTarget = (effSides m.sides).getD 0 "" ∧
      (step m .keyFlash).completedSteps = []) := by
  refine ⟨?_, ?_, ?_⟩
  · intro m
    simp [step, onFlashComplete]
  · intro m msg
    cases msg with
    | deviceEvent c p =>
      refine Or.inl ?_
      cases c with
      | true =>
        simp only [step, onDeviceEvent, if_true]
        try dsimp only
        split
        · rw [startFlash_flashIndex]
        · rfl
      | false =>
        simp only [step, onDeviceEvent, Bool.false_eq_true, if_false]
        try dsimp only
        split <;> rfl
    | flashComplete s =>
      cases s with
      | true =>
        refine Or.inr (Or.inl ⟨rfl, ?_⟩)
        simp only [step, onFlashComplete, if_true]
        try dsimp only
        split <;> rfl
      | false =>
        exact Or.inl rfl
    | keyFlash =>
      simp only [step]
      by_cases hi : m.state = AppState.StateIdle
      · rw [if_pos hi]
        cases hb : m.selectedBuild with
        | none => exact Or.inl rfl
        | some build =>
          try dsimp only
          rw [prepareFlash, hb]
          try dsimp only
          by_cases hf : build.Files.length = 0
          · rw [if_pos hf]
            exact Or.inl rfl
          · rw [if_neg hf]
            refine Or.inr (Or.inr ⟨trivial, ?_⟩)
            try dsimp only
            split <;> rfl
      · rw [if_neg hi]
        exact Or.inl rfl
    | keyEsc =>
      refine Or.inl ?_
      simp only [step]
      split
      · rfl
      · split <;> rfl
    | keyEnter =>
      refine Or.inl ?_
      simp only [step]
      split <;> rfl
  · intro m b hst hsel hfs
    simp only [step, hst, if_pos, hsel]
    try dsimp only
    rw [prepareFlash, hsel]
    try dsimp only
    rw [if_neg hfs]
    try dsimp only
    split <;> exact ⟨rfl, rfl, rfl⟩

/-- A session sitting in Idle with the split build selected. -/
def mIdle : OrchModel :=
  { mFlashing with state := AppState.StateIdle }

/-- Concrete instantiation of the cursor-discard theorem: a failed flash
mid-session lands in Idle, and a fresh flash request restarts at the first
side. -/
theorem flash_failure_discards_cursor_witness :
    (step mFlashing (.flashComplete false)).state = AppState.StateIdle ∧
    (step mIdle .keyFlash).flashIndex = 0 ∧
    (step mIdle .keyFlash).flashTarget = (effSides mIdle.sides).getD 0 "" :=
  ⟨(flash_failure_discards_cursor.1 mFlashing).1,
   (flash_failure_discards_cursor.2.2 mIdle exampleBuildLR rfl rfl (by decide)).1,
   (flash_failure_discards_cursor.2.2 mIdle exampleBuildLR rfl rfl (by decide)).2.1⟩

/-- C9: target-file resolution selects the first file whose name contains
the side identifier as a case-insensitive substring; if no file matches and
the build has exactly one file, that file is the fallback; otherwise no
file is selected (empty path sentinel) and a connect in WaitingDevice
reports the no-firmware-for-side condition by returning to Idle instead of
proceeding with a flash. -/
theorem target_file_resolution :
    (∀ (files : List File) (target : String) (f : File),
      files.find? (fun g => strContains (strToLower g.Name) (strToLower target)) = some f →
      findTargetFile files target = f.Path) ∧
    (∀ (files : List File) (target : String) (f : File),
      files.find? (fun g => strContains (strToLower g.Name) (strToLower target)) = none →
      files = [f] →
      findTargetFile files target = f.Path) ∧
    (∀ (files : List File) (target : String),
      files.find? (fun g => strContains (strToLower g.Name) (strToLower target)) = none →
      files.length ≠ 1 →
      findTargetFile files target = "") ∧
    (∀ (m : OrchModel) (b : Build) (p : String),
      m.state = AppState.StateWaitingDevice →
      m.selectedBuild = some b →
      findTargetFile b.Files m.flashTarget = "" →
      (step m (.deviceEvent true p)).state = AppState.StateIdle) := by
  refine ⟨?_, ?_, ?_, ?_⟩
  · intro files target f hfind
    unfold findTargetFile
    try dsimp only
    rw [hfind]
    try dsimp only
    by_cases hc : (f.Path = "" && files.length == 1) = true
    · rw [if_pos (by simpa using hc)]
      rw [Bool.and_eq_true] at hc
      obtain ⟨hfp, hone⟩ := hc
      have hone' : files.length = 1 := by simpa using hone
      obtain ⟨a, ha⟩ := List.length_eq_one.1 hone'
      have hmem : f ∈ files := List.mem_of_find?_eq_some hfind
      rw [ha] at hmem ⊢
      have : f = a := List.eq_of_mem_singleton hmem
      rw [← this]
      rfl
    · rw [if_neg (by simpa using hc)]
  · intro files target f hfind hone
    subst hone
    unfold findTargetFile
    try dsimp only
    rw [hfind]
    rfl
  · intro files target hfind hone
    unfold findTargetFile
    try dsimp only
    rw [hfind]
    try dsimp only
    rw [if_neg]
    intro hc
    rw [Bool.and_eq_true] at hc
    exact hone (by simpa using hc.2)
  · intro m b p hst hsel hres
    simp only [step, onDeviceEvent, if_true]
    try dsimp only
    rw [if_pos hst]
    unfold startFlash
    try dsimp only
    rw [hsel]
    try dsimp only
    rw [if_pos hres]

/-- A build whose files match no side identifier and which has two files,
so no fallback applies. -/
def exampleBuildNoMatch : Build :=
  { Date := ""
    Path := "fw"
    Files :=
      [{ Name := "alpha.uf2", Path := "fw/alpha.uf2", Size := 1 },
       { Name := "beta.uf2", Path := "fw/beta.uf2", Size := 1 }] }

/-- A session waiting for the device with the unmatchable build selected. -/
def mWaitNoMatch : OrchModel :=
  { state := AppState.StateWaitingDevice
    deviceStatus := DeviceStatus.DeviceDisconnected
    devicePath := ""
    sides := ["left", "right"]
    isSplit := true
    selectedBuild := some exampleBuildNoMatch
    flashIndex := 0
    flashTarget := "left"
    completedSteps := [] }

/-- Concrete instantiation of target-file resolution: "LEFT" picks the
left-named file case-insensitively, a single-file build is the fallback for
an unmatched side, an unmatched multi-file build resolves to nothing, and
connecting in that state lands in Idle, not Flashing. -/
theorem target_file_resolution_witness :
    findTargetFile exampleBuildLR.Files "LEFT"
      = "fw/20250115/corne_left.uf2" ∧
    findTargetFile [{ Name := "corne.uf2", Path := "fw/corne.uf2", Size := 1 }] "left"
      = "fw/corne.uf2" ∧
    findTargetFile exampleBuildNoMatch.Files "left" = "" ∧
    (step mWaitNoMatch (.deviceEvent true "/Volumes/NICENANO")).state
      = AppState.StateIdle :=
  ⟨target_file_resolution.1 exampleBuildLR.Files "LEFT"
      { Name := "corne_left.uf2", Path := "fw/20250115/corne_left.uf2", Size := 1 }
      (by decide),
   target_file_resolution.2.1
      [{ Name := "corne.uf2", Path := "fw/corne.uf2", Size := 1 }] "left"
      { Name := "corne.uf2", Path := "fw/corne.uf2", Size := 1 } (by decide) rfl,
   target_file_resolution.2.2.1 exampleBuildNoMatch.Files "left" (by decide) (by decide),
   target_file_resolution.2.2.2 mWaitNoMatch exampleBuildNoMatch "/Volumes/NICENANO"
      rfl rfl (by decide)⟩

end KBFlash
